import Mathlib

/-!
Verification of the ground-truth conversion pipeline
(`convert-ground-truth.py`): text normalizer, hierarchical-CSV parser,
flat encoder, round-trip validator and publish gate.

Strings are modelled as Lean `String` / `List Char`; Python's `str.strip`,
`str.upper`/`lower`, `re` patterns, `json` and `csv` behaviour are embedded
explicitly below, restricted to ASCII case folding and ASCII whitespace
(the repertoire the pipeline's comparisons actually exercise).
-/

namespace GroundTruth

/-- The apostrophe character, written via its code point. -/
def squote : Char := Char.ofNat 39

/-- The double-quote character. -/
def dquote : Char := '"'

/-- Python `str.strip()` whitespace set (ASCII part). -/
def pyIsSpace (c : Char) : Bool :=
  c = ' ' || c = '\t' || c = '\n' || c = '\r' || c = Char.ofNat 11 || c = Char.ofNat 12

/-- Drop characters satisfying `p` from both ends of a character list
(Python `str.strip(chars)`). -/
def dropEnds (p : Char → Bool) (l : List Char) : List Char :=
  ((l.dropWhile p).reverse.dropWhile p).reverse

/-- Python `str.strip()` on a character list. -/
def pyStripL (l : List Char) : List Char := dropEnds pyIsSpace l

/-- Python `str.strip()` on a `String`. -/
def pyStripS (s : String) : String := String.mk (pyStripL s.data)

/-- Python `str.strip(cs)` for a set of characters `cs`: removes every
leading and trailing character belonging to `cs`. -/
def stripAllL (cs : List Char) (l : List Char) : List Char :=
  dropEnds (fun c => cs.contains c) l

/-- Fold Unicode smart double quotes to `"` and smart single quotes to
the apostrophe (lines 42-43 of `clean_text`). -/
def foldSmart (c : Char) : Char :=
  if c = Char.ofNat 0x201C || c = Char.ofNat 0x201D then dquote
  else if c = Char.ofNat 0x2018 || c = Char.ofNat 0x2019 then squote
  else c

/-- Split a character list into maximal whitespace-free words
(Python `str.split()` with no argument). -/
def splitWS : List Char → List (List Char)
  | [] => []
  | c :: r =>
    let ws := splitWS r
    if pyIsSpace c then ws
    else
      match r with
      | [] => [[c]]
      | d :: _ =>
        if pyIsSpace d then [c] :: ws
        else
          match ws with
          | [] => [[c]]
          | w :: ws2 => (c :: w) :: ws2

/-- Join words with single spaces (Python `' '.join(...)`). -/
def joinSpace : List (List Char) → List Char
  | [] => []
  | [w] => w
  | w :: ws => w ++ ' ' :: joinSpace ws

/-- The body of `clean_text` on character lists: smart-quote folding, whitespace strip,
strip of all enclosing `"` then all enclosing `'`, strip again, and
whitespace-run collapse — exactly the operations of lines 36-51 of
`convert-ground-truth.py`, in source order. -/
def cleanTextL (l : List Char) : List Char :=
  match l with
  | [] => []
  | _ =>
    let l1 := l.map foldSmart
    let l2 := pyStripL l1
    let l3 := stripAllL [dquote] l2
    let l4 := stripAllL [squote] l3
    let l5 := pyStripL l4
    joinSpace (splitWS l5)

/-- The source's `clean_text`, on `String`. -/
def clean_text (s : String) : String := String.mk (cleanTextL s.data)

/-- True when a character is `"` or the apostrophe (the regex class
from patterns in the source). -/
def isQuoteChar (c : Char) : Bool := c = dquote || c = squote

/-- Tail of the marker regex after `Document (<digits>):` — the part
matched by a lazy group flanked by optional quotes and the line end.
Given the remaining characters, return the capture of the shortest
successful lazy group: the whole remainder, or the remainder without a
single trailing quote character.  `.` does not match a newline. -/
def captureOf (rest : List Char) : Option (List Char) :=
  match rest.reverse with
  | [] => none
  | last :: revInit =>
    let cap := if isQuoteChar last && !revInit.isEmpty then revInit.reverse else rest
    if cap.contains '\n' then none else some cap

/-- Optional opening quote before the lazy group: in backtracking
priority order, try consuming a quote character first, then not. -/
def tryQuote (rest : List Char) : Option (List Char) :=
  match rest with
  | c :: r =>
    if isQuoteChar c then
      match captureOf r with
      | some g => some g
      | none => captureOf rest
    else captureOf rest
  | [] => none

/-- Greedy `\s*` with backtracking: try the longest run of whitespace
first, then shorter runs down to zero. -/
def goTail (t : List Char) : Nat → Option (List Char)
  | 0 => tryQuote t
  | k + 1 =>
    match tryQuote (t.drop (k + 1)) with
    | some g => some g
    | none => goTail t k

/-- Match `\s*["\x27]?(.+?)["\x27]?$` against the characters following
`Document (<digits>):`, returning the lazy capture group. -/
def tailCapture (t : List Char) : Option (List Char) :=
  goTail t (t.takeWhile pyIsSpace).length

/-- Attempt the marker regex at the current position: the literal
`Document (`, one or more digits, `):`, then the quoted-filename tail. -/
def markerAt (l : List Char) : Option (List Char) :=
  if "Document (".data.isPrefixOf l then
    let r := l.drop 10
    let ds := r.takeWhile Char.isDigit
    if ds.isEmpty then none
    else
      match r.drop ds.length with
      | ')' :: ':' :: rest => tailCapture rest
      | _ => none
  else none

/-- Model of `re.search` for the marker pattern: try each start position from the
left and return the first capture. -/
def markerSearch : List Char → Option (List Char)
  | [] => none
  | c :: r =>
    match markerAt (c :: r) with
    | some g => some g
    | none => markerSearch r

/-- ASCII upper-casing of a character list (models Python `str.upper`
for the `"NO"` sentinel comparison). -/
def asciiUpper (l : List Char) : List Char := l.map Char.toUpper

/-- ASCII lower-casing of a character list (models Python `str.lower`
for the `'null'` sentinel comparison). -/
def asciiLower (l : List Char) : List Char := l.map Char.toLower

/-- Model of `re.match` for `Null\s*\((.+?)\)` (case-insensitive): a case-folded
`Null` prefix, optional whitespace, `(`, then the lazy group running to
the first `)` lying at least one character past the `(`. -/
def nullMatchL (l : List Char) : Option (List Char) :=
  match l with
  | a :: b :: c :: d :: rest =>
    if a.toLower = 'n' && b.toLower = 'u' && c.toLower = 'l' && d.toLower = 'l' then
      match rest.dropWhile pyIsSpace with
      | '(' :: c0 :: r3 =>
        match r3.findIdx? (fun x => x = ')') with
        | some k =>
          let cap := c0 :: r3.take k
          if cap.contains '\n' then none else some cap
        | none => none
      | _ => none
    else none
  | _ => none

/-- Data-row value filtering (lines 117-128 of the source): skip the
`NO` sentinel, unwrap `Null(...)` notation re-cleaning the inner text,
and skip values that end up empty or equal to `null` case-insensitively.
Returns the value that is actually contributed, if any. -/
def processValue (value : List Char) : Option (List Char) :=
  if asciiUpper value = ['N', 'O'] then none
  else
    let v :=
      match nullMatchL value with
      | some inner => cleanTextL inner
      | none => value
    if v.isEmpty || asciiLower v = ['n', 'u', 'l', 'l'] then none else some v

/-- The five section tags of the hierarchical format. -/
inductive SectionTag
  | diagnostico
  | cie10
  | destino_alta
  | medicamentos
  | consultas
deriving DecidableEq

/-- One parsed document record, mirroring the dict built at lines 84-92:
four multi-valued fields, a scalar discharge destination, and the
`raw_rows` provenance list of `(row number, section, value)`. -/
structure Doc where
  document_id : String
  diagnostico : List String
  cie10 : List String
  destino_alta : String
  medicamentos : List String
  consultas : List String
  raw_rows : List (Nat × SectionTag × String)
deriving DecidableEq

/-- A freshly opened record for the given filename. -/
def newDoc (filename : String) : Doc :=
  ⟨filename, [], [], "", [], [], []⟩

/-- Append a value only if it is not already present (line 134:
`if value not in current_doc[current_section]`). -/
def pushIfAbsent (l : List String) (v : String) : List String :=
  if v ∈ l then l else l ++ [v]

/-- Write a processed value into the current section of a record and
append the provenance entry (lines 130-142). -/
def applySection (sec : SectionTag) (value : String) (row_num : Nat) (d : Doc) : Doc :=
  let d1 :=
    match sec with
    | .destino_alta => { d with destino_alta := value }
    | .diagnostico => { d with diagnostico := pushIfAbsent d.diagnostico value }
    | .cie10 => { d with cie10 := pushIfAbsent d.cie10 value }
    | .medicamentos => { d with medicamentos := pushIfAbsent d.medicamentos value }
    | .consultas => { d with consultas := pushIfAbsent d.consultas value }
  { d1 with raw_rows := d1.raw_rows ++ [(row_num, sec, value)] }

/-- Parser state.  Python's `documents` list holds references to the
record dicts and `current_doc` aliases the most recently created one,
so records are modelled as entries of a growing `heap` and both
`documents` (the sealed output list) and `current_doc` hold indices
into it; a later mutation through `current_doc` is then visible in
`documents`, exactly as for the Python references. -/
structure PState where
  heap : List Doc
  documents : List Nat
  current_doc : Option Nat
  current_section : Option SectionTag
deriving DecidableEq

/-- The state at the top of the row loop. -/
def initState : PState := ⟨[], [], none, none⟩

/-- How one row is classified by the loop body, in the source's
priority order. -/
inductive RowCls
  | blank
  | marker (g : Option (List Char))
  | header (sec : SectionTag)
  | data (val : Option (List Char))

/-- The classification chain of lines 66-111: blank rows, document
markers detected on the cleaned first cell (carrying the regex capture,
if any), section headers compared against the stripped raw first cell,
and everything else a data row (carrying the filtered value, if any,
of the cleaned first cell). -/
def classifyRow (row : List String) : RowCls :=
  if row.all (fun c => c == "") then .blank
  else
    let first_col := pyStripS (row.headD "")
    let fcc := clean_text first_col
    if "Document (".data.isPrefixOf fcc.data then .marker (markerSearch fcc.data)
    else if first_col = "Diagnóstico:" then .header .diagnostico
    else if first_col = "CIE-10:" then .header .cie10
    else if first_col = "Destino al alta:" then .header .destino_alta
    else if first_col = "Medicamentos:" then .header .medicamentos
    else if "Consultas".data.isPrefixOf first_col.data then .header .consultas
    else .data (processValue fcc.data)

/-- One iteration of the row loop of `parse_hierarchical_csv`
(lines 66-142).  On a marker row the currently open record is sealed
first; only a successful extraction then opens a fresh record (on
failure `current_doc` and `current_section` keep their values, as in
the source).  Data rows only act when a record is open, a section is
selected, and the value survives filtering. -/
def step (st : PState) (row_num : Nat) (row : List String) : PState :=
  match classifyRow row with
  | .blank => st
  | .marker og =>
    let docs1 :=
      match st.current_doc with
      | some i => st.documents ++ [i]
      | none => st.documents
    match og with
    | some g =>
      { heap := st.heap ++ [newDoc (String.mk (cleanTextL g))],
        documents := docs1,
        current_doc := some st.heap.length,
        current_section := none }
    | none => { st with documents := docs1 }
  | .header sec => { st with current_section := some sec }
  | .data ov =>
    match st.current_doc, st.current_section, ov with
    | some i, some sec, some v =>
      { st with heap := st.heap.set i (applySection sec (String.mk v) row_num (st.heap.getD i (newDoc ""))) }
    | _, _, _ => st

/-- Run the row loop from a given state, numbering rows from `n`. -/
def runRows (st : PState) (n : Nat) : List (List String) → PState
  | [] => st
  | r :: rs => runRows (step st n r) (n + 1) rs

/-- The parser state after consuming all rows (rows numbered from 1 as
by `enumerate(reader, 1)`). -/
def finalState (rows : List (List String)) : PState :=
  runRows initState 1 rows

/-- The source's `parse_hierarchical_csv` on an in-memory row list: run the loop,
seal the still-open record (lines 144-146), and read the sealed
references out of the heap. -/
def parse_hierarchical_csv (rows : List (List String)) : List Doc :=
  let st := finalState rows
  let sealed :=
    match st.current_doc with
    | some i => st.documents ++ [i]
    | none => st.documents
  sealed.map (fun i => st.heap.getD i (newDoc ""))

/-- The rows the state machine treats as document markers with a
successful identifier extraction. -/
def isMarkerSuccess (row : List String) : Bool :=
  match classifyRow row with
  | .marker (some _) => true
  | _ => false

/-- Number of document-marker rows whose identifier extraction
succeeds. -/
def markerSuccessCount (rows : List (List String)) : Nat :=
  rows.countP isMarkerSuccess

/-- Lower-case hex digit for a nibble. -/
def hexDigit (n : Nat) : Char :=
  if n < 10 then Char.ofNat (48 + n) else Char.ofNat (87 + n)

/-- JSON string escaping as `json.dumps` with `ensure_ascii=False`
performs it: `"`, backslash, and the named control escapes get a
backslash form, other control characters a `\u00XX` form, and
everything else (including non-ASCII) passes through. -/
def jsonEscapeChar (c : Char) : List Char :=
  if c = dquote then ['\\', dquote]
  else if c = '\\' then ['\\', '\\']
  else if c = '\n' then ['\\', 'n']
  else if c = '\t' then ['\\', 't']
  else if c = '\r' then ['\\', 'r']
  else if c = Char.ofNat 8 then ['\\', 'b']
  else if c = Char.ofNat 12 then ['\\', 'f']
  else if c.toNat < 32 then
    ['\\', 'u', '0', '0', hexDigit (c.toNat / 16), hexDigit (c.toNat % 16)]
  else [c]

/-- A JSON string literal for `s`. -/
def jsonStringL (s : List Char) : List Char :=
  dquote :: (s.flatMap jsonEscapeChar) ++ [dquote]

/-- Join with `", "` — the default item separator of `json.dumps`. -/
def joinCommaSpace : List (List Char) → List Char
  | [] => []
  | [w] => w
  | w :: ws => w ++ ',' :: ' ' :: joinCommaSpace ws

/-- Model of `json.dumps` on a list of strings with `ensure_ascii=False`. -/
def jsonDumpsListL (l : List String) : List Char :=
  '[' :: joinCommaSpace (l.map (fun s => jsonStringL s.data)) ++ [']']

/-- Wrap a field value in double quotes, doubling internal double
quotes (line 189 of the source). -/
def csvQuoteL (v : List Char) : List Char :=
  dquote :: (v.flatMap (fun c => if c = dquote then [dquote, dquote] else [c])) ++ [dquote]

/-- The seven values of one flat row, in the dict insertion order of
lines 177-185. -/
def rowValues (d : Doc) (version : String) : List (List Char) :=
  [d.document_id.data, jsonDumpsListL d.diagnostico, jsonDumpsListL d.cie10,
   d.destino_alta.data, jsonDumpsListL d.medicamentos, jsonDumpsListL d.consultas,
   version.data]

/-- Join with single commas. -/
def joinComma : List (List Char) → List Char
  | [] => []
  | [w] => w
  | w :: ws => w ++ ',' :: joinComma ws

/-- The bare header line of the flat artifact (line 170, without its
newline). -/
def headerLine : List Char :=
  "document_id,diagnostico,cie10,destino_alta,medicamentos,consultas,version".data

/-- The source's `convert_to_flat_csv`: header, then one fully quoted row per
document.  The `version` value, derived from the current date in the
source, is passed as a parameter. -/
def convert_to_flat_csv (documents : List Doc) (version : String) : String :=
  String.mk (headerLine ++ '\n' ::
    documents.flatMap (fun d => joinComma ((rowValues d version).map csvQuoteL) ++ ['\n']))

/-- Split a character list at every newline, keeping empty pieces
(Python `str.split('\n')`). -/
def splitNl (l : List Char) : List (List Char) :=
  l.foldr
    (fun c acc =>
      match acc with
      | w :: ws => if c = '\n' then [] :: w :: ws else (c :: w) :: ws
      | [] => [[c]])
    [[]]

/-- States of the `csv` module's field scanner. -/
inductive CsvSt
  | fieldStart
  | inField
  | inQuoted
  | quoteEnd

/-- The `csv.reader` field scanner for one line, default dialect
(delimiter `,`, quote `"`, doubled quotes, non-strict).  Returns `none`
for a line ending inside a quoted field (the reader would then consume
further lines; no artifact in scope here does this). -/
def csvSplitGo : CsvSt → List Char → List Char → List (List Char) → Option (List (List Char))
  | .inQuoted, [], _, _ => none
  | _, [], cur, acc => some ((cur.reverse :: acc).reverse)
  | .fieldStart, c :: r, cur, acc =>
    if c = dquote then csvSplitGo .inQuoted r cur acc
    else if c = ',' then csvSplitGo .fieldStart r [] (cur.reverse :: acc)
    else csvSplitGo .inField r (c :: cur) acc
  | .inField, c :: r, cur, acc =>
    if c = ',' then csvSplitGo .fieldStart r [] (cur.reverse :: acc)
    else csvSplitGo .inField r (c :: cur) acc
  | .inQuoted, c :: r, cur, acc =>
    if c = dquote then csvSplitGo .quoteEnd r cur acc
    else csvSplitGo .inQuoted r (c :: cur) acc
  | .quoteEnd, c :: r, cur, acc =>
    if c = dquote then csvSplitGo .inQuoted r (c :: cur) acc
    else if c = ',' then csvSplitGo .fieldStart r [] (cur.reverse :: acc)
    else csvSplitGo .inField r (c :: cur) acc

/-- Parse one CSV line into its fields; an empty line is the empty
row. -/
def csvSplitLine (l : List Char) : Option (List (List Char)) :=
  match l with
  | [] => some []
  | _ => csvSplitGo .fieldStart l [] []

/-- Python `str.replace('""', '"')`: left-to-right, non-overlapping. -/
def replaceDD : List Char → List Char
  | [] => []
  | [c] => [c]
  | c :: d :: r =>
    if c = dquote && d = dquote then dquote :: replaceDD r
    else c :: replaceDD (d :: r)

/-- JSON whitespace. -/
def jsonWs (c : Char) : Bool :=
  c = ' ' || c = '\t' || c = '\n' || c = '\r'

/-- Hex digit value. -/
def hexVal (c : Char) : Option Nat :=
  if '0' ≤ c && c ≤ '9' then some (c.toNat - 48)
  else if 'a' ≤ c && c ≤ 'f' then some (c.toNat - 87)
  else if 'A' ≤ c && c ≤ 'F' then some (c.toNat - 70)
  else none

/-- Scan a JSON string literal body after its opening quote, returning
content and remainder.  Strict mode: raw control characters are
rejected; lone surrogate escapes are rejected. -/
def jsonStringGo : List Char → List Char → Option (List Char × List Char)
  | [], _ => none
  | '"' :: r, acc => some (acc.reverse, r)
  | ['\\'], _ => none
  | '\\' :: e :: r, acc =>
    if e = dquote then jsonStringGo r (dquote :: acc)
    else if e = '\\' then jsonStringGo r ('\\' :: acc)
    else if e = '/' then jsonStringGo r ('/' :: acc)
    else if e = 'b' then jsonStringGo r (Char.ofNat 8 :: acc)
    else if e = 'f' then jsonStringGo r (Char.ofNat 12 :: acc)
    else if e = 'n' then jsonStringGo r ('\n' :: acc)
    else if e = 'r' then jsonStringGo r ('\r' :: acc)
    else if e = 't' then jsonStringGo r ('\t' :: acc)
    else if e = 'u' then
      match r with
      | h1 :: h2 :: h3 :: h4 :: r2 =>
        match hexVal h1, hexVal h2, hexVal h3, hexVal h4 with
        | some a, some b, some c, some d =>
          let n := ((a * 16 + b) * 16 + c) * 16 + d
          if n < 0xd800 then jsonStringGo r2 (Char.ofNat n :: acc) else none
        | _, _, _, _ => none
      | _ => none
    else none
  | c :: r, acc => if c.toNat < 32 then none else jsonStringGo r (c :: acc)

/-- Parse the elements of a JSON array after the first element, with a
character-count fuel. -/
def jsonArrElems : Nat → List Char → List String → Option (List String × List Char)
  | 0, _, _ => none
  | fuel + 1, l, acc =>
    match l.dropWhile jsonWs with
    | ']' :: r => some (acc.reverse, r)
    | ',' :: r =>
      match r.dropWhile jsonWs with
      | '"' :: r2 =>
        match jsonStringGo r2 [] with
        | some (s, r3) => jsonArrElems fuel r3 (String.mk s :: acc)
        | none => none
      | _ => none
    | _ => none

/-- Model of `json.loads` restricted to a JSON array of strings (the only shape
the validator feeds to it); any other document is a failure. -/
def jsonLoadsArr (l : List Char) : Option (List String) :=
  match l.dropWhile jsonWs with
  | '[' :: r =>
    match r.dropWhile jsonWs with
    | ']' :: r2 => if (r2.dropWhile jsonWs).isEmpty then some [] else none
    | '"' :: r2 =>
      match jsonStringGo r2 [] with
      | some (s, r3) =>
        match jsonArrElems (r3.length + 1) r3 [String.mk s] with
        | some (elems, rest) => if (rest.dropWhile jsonWs).isEmpty then some elems else none
        | none => none
      | none => none
    | _ => none
  | _ => none

/-- One decoded flat row as rebuilt at lines 213-220 (the `version`
column is never read back). -/
structure ConvDoc where
  document_id : String
  diagnostico : List String
  cie10 : List String
  destino_alta : String
  medicamentos : List String
  consultas : List String
deriving DecidableEq

/-- Python `str.strip` over quote characters, on a field. -/
def stripQ (l : List Char) : List Char := stripAllL [dquote] l

/-- The per-column JSON decode of the validator: strip quotes, undouble
doubled quotes, `json.loads`. -/
def jsonField (l : List Char) : Option (List String) :=
  jsonLoadsArr (replaceDD (stripQ l))

/-- Decode one data row (needs the six accessed columns; a shorter row
makes the Python code raise). -/
def decodeRow (row : List (List Char)) : Option ConvDoc :=
  match row with
  | c0 :: c1 :: c2 :: c3 :: c4 :: c5 :: _ =>
    match jsonField c1, jsonField c2, jsonField c4, jsonField c5 with
    | some dg, some ci, some me, some co =>
      some ⟨String.mk (stripQ c0), dg, ci, String.mk (stripQ c3), me, co⟩
    | _, _, _, _ => none
  | _ => none

/-- Option-valued map over a list, failing if any element fails. -/
def optList {α β : Type} (f : α → Option β) : List α → Option (List β)
  | [] => some []
  | a :: r =>
    match f a, optList f r with
    | some b, some bs => some (b :: bs)
    | _, _ => none

/-- The parsed header row of a well-formed artifact. -/
def expectedHeader : List (List Char) :=
  ["document_id".data, "diagnostico".data, "cie10".data, "destino_alta".data,
   "medicamentos".data, "consultas".data, "version".data]

/-- Decode a flat artifact back into rows (lines 207-221): strip the
whole content, split on newlines, CSV-scan each line, take the first
row as the header (required here to be the canonical one, which is what
the name-indexed access needs), skip empty rows, and decode each data
row.  `none` models a raised exception. -/
def decodeArtifact (csv_content : String) : Option (List ConvDoc) :=
  let lines := splitNl (pyStripL csv_content.data)
  match optList csvSplitLine lines with
  | none => none
  | some rows =>
    match rows with
    | [] => some []
    | header :: rest =>
      if header = expectedHeader then
        optList decodeRow (rest.filter (fun r => !r.isEmpty))
      else none

/-- One recorded validation discrepancy, mirroring the strings appended
to `doc_issues` at lines 238-261. -/
inductive Issue
  | docId (o c : String)
  | missing (f : SectionTag) (vals : List String)
  | extra (f : SectionTag) (vals : List String)
  | countMismatch (f : SectionTag) (o c : Nat)
  | destino (o c : String)
deriving DecidableEq

/-- Python set equality of the underlying element sets. -/
def setEqB (o c : List String) : Bool :=
  o.all (fun x => decide (x ∈ c)) && c.all (fun x => decide (x ∈ o))

/-- The issues recorded for one multi-valued field (lines 242-257):
missing/extra elements when the sets differ, and an independent count
check. -/
def fieldIssues (f : SectionTag) (o c : List String) : List Issue :=
  (if setEqB o c then []
   else
     (if (o.filter (fun x => decide (x ∉ c))).isEmpty then []
      else [.missing f (o.filter (fun x => decide (x ∉ c)))]) ++
     (if (c.filter (fun x => decide (x ∉ o))).isEmpty then []
      else [.extra f (c.filter (fun x => decide (x ∉ o)))])) ++
  (if o.length = c.length then [] else [.countMismatch f o.length c.length])

/-- All issues for one original/decoded pair, in source order:
document id, the four multi-valued fields, discharge destination. -/
def docIssues (o : Doc) (c : ConvDoc) : List Issue :=
  (if o.document_id = c.document_id then [] else [.docId o.document_id c.document_id]) ++
  fieldIssues .diagnostico o.diagnostico c.diagnostico ++
  fieldIssues .cie10 o.cie10 c.cie10 ++
  fieldIssues .medicamentos o.medicamentos c.medicamentos ++
  fieldIssues .consultas o.consultas c.consultas ++
  (if o.destino_alta = c.destino_alta then [] else [.destino o.destino_alta c.destino_alta])

/-- The aggregated discrepancy list of the validation loop (lines
264-269): one `(document_id, issues)` entry per compared pair with a
non-empty issue list, in original order. -/
def discrepanciesOf (original_docs : List Doc) (converted : List ConvDoc) :
    List (String × List Issue) :=
  (original_docs.zip converted).filterMap
    (fun p => if docIssues p.1 p.2 = [] then none
      else some (p.1.document_id, docIssues p.1 p.2))

/-- The validation verdict on decoded rows: the count check fails
immediately (lines 224-226, with the — then still empty — discrepancy
list), otherwise validity is the emptiness of the aggregated
discrepancies. -/
def validateDecoded (original_docs : List Doc) (converted : List ConvDoc) :
    Bool × List (String × List Issue) :=
  if original_docs.length = converted.length then
    ((discrepanciesOf original_docs converted).isEmpty,
      discrepanciesOf original_docs converted)
  else (false, [])

/-- The source's `validate_conversion`: decode the artifact and judge it against the
originals.  The pair is the `(all_valid, discrepancies)` state of lines
231-282; `none` models an exception escaping the function. -/
def validate_conversion (original_docs : List Doc) (csv_content : String) :
    Option (Bool × List (String × List Issue)) :=
  (decodeArtifact csv_content).map (validateDecoded original_docs)

/-- The durable-storage writes `main` can perform after validation. -/
inductive WriteAction
  | flatCsv (content : String)
  | debugJson (docs : List Doc)
  | latestPointer (version : String)
deriving DecidableEq

/-- How a pipeline run ends. -/
inductive MainResult
  | noDocs
  | exception
  | blocked (discrepancies : List (String × List Issue))
  | published (content : String)
deriving DecidableEq

/-- The publish gate of `main` (lines 339-384), with file writes
abstracted into an ordered list of `WriteAction`s and the date-derived
version tag passed in: parse, bail out on no documents, encode,
validate, and either stop (writing nothing) or persist the flat CSV,
the debug JSON and the LATEST pointer. -/
def mainModel (rows : List (List String)) (version : String) :
    List WriteAction × MainResult :=
  let original_docs := parse_hierarchical_csv rows
  if original_docs.isEmpty then ([], .noDocs)
  else
    let csv_content := convert_to_flat_csv original_docs version
    match validate_conversion original_docs csv_content with
    | none => ([], .exception)
    | some (valid, discrepancies) =>
      if valid then
        ([.flatCsv csv_content, .debugJson original_docs, .latestPointer version],
         .published csv_content)
      else ([], .blocked discrepancies)

/-- Strip exactly one layer of enclosing quote characters: remove the
first and last character when both are quote characters.  This follows
the specification's wording for step 2 of the normalizer, to be
compared with the source's `clean_text`. -/
def stripOneLayer (l : List Char) : List Char :=
  if decide (2 ≤ l.length) && isQuoteChar (l.headD ' ') && isQuoteChar (l.getLastD ' ') then
    (l.drop 1).dropLast
  else l

/-- The normalizer as the specification words it: fold smart quotes,
trim, strip exactly one layer of enclosing quotes, trim again, collapse
whitespace runs. -/
def cleanTextSpecOneLayer (s : String) : String :=
  String.mk (joinSpace (splitWS (pyStripL (stripOneLayer (pyStripL (s.data.map foldSmart))))))

/-- The normalizer with the quote-stripping step amended to what the
source does: strip all enclosing double quotes, then all enclosing
single quotes. -/
def cleanTextAllLayers (s : String) : String :=
  String.mk (joinSpace (splitWS (pyStripL (stripAllL [squote]
    (stripAllL [dquote] (pyStripL (s.data.map foldSmart)))))))

/-- Default decoded record used for positional access. -/
def defaultConv : ConvDoc := ⟨"", [], [], "", [], []⟩

/-- The per-record invariant of the four multi-valued fields. -/
def NodupDoc (d : Doc) : Prop :=
  d.diagnostico.Nodup ∧ d.cie10.Nodup ∧ d.medicamentos.Nodup ∧ d.consultas.Nodup

/-- Heap-wide invariant of the parser state. -/
def HeapInv (st : PState) : Prop := ∀ d ∈ st.heap, NodupDoc d

/-- A small well-behaved input: one document, one diagnosis. -/
def rowsHappy : List (List String) :=
  [["Document (1): doc1"], ["Diagnóstico:"], ["Neumonía"]]

/-- The record parsed from `rowsHappy`. -/
def docHappy : Doc :=
  ⟨"doc1", ["Neumonía"], [], "", [], [], [(3, .diagnostico, "Neumonía")]⟩

/-- An input whose parsed `document_id` ends in a double quote, which
the validator's decode then strips, failing the round-trip. -/
def rowsQuoteId : List (List String) :=
  [["Document (1): a\"'\"'"]]

/-- A positional read with a default is either a list member or the
default. -/
theorem getD_mem_or {α : Type} (l : List α) (i : Nat) (d : α) :
    l.getD i d ∈ l ∨ l.getD i d = d := by
  by_cases h : i < l.length
  · left
    rw [List.getD_eq_getElem l d h]
    exact List.getElem_mem h
  · right
    exact List.getD_eq_default l d (le_of_not_lt h)

/-- Any record in the post-step heap is an old record, a freshly opened
record, or a section update of an old (or default) record. -/
theorem step_heap_mem (st : PState) (n : Nat) (row : List String) (d : Doc)
    (hd : d ∈ (step st n row).heap) :
    d ∈ st.heap ∨ (∃ f, d = newDoc f) ∨
      ∃ sec v m d0, (d0 ∈ st.heap ∨ d0 = newDoc "") ∧ d = applySection sec v m d0 := by
  unfold step at hd
  cases hcl : classifyRow row with
  | blank => rw [hcl] at hd; exact Or.inl hd
  | marker og =>
    rw [hcl] at hd
    cases og with
    | none => cases hc : st.current_doc <;> rw [hc] at hd <;> exact Or.inl hd
    | some g =>
      cases hc : st.current_doc <;> rw [hc] at hd <;>
        rcases List.mem_append.mp hd with hd | hd <;>
        first
        | exact Or.inl hd
        | exact Or.inr (Or.inl ⟨_, List.mem_singleton.mp hd⟩)
  | header sec => rw [hcl] at hd; exact Or.inl hd
  | data ov =>
    rw [hcl] at hd
    cases hc : st.current_doc with
    | none => rw [hc] at hd; exact Or.inl hd
    | some i =>
      cases hs : st.current_section with
      | none => rw [hc, hs] at hd; exact Or.inl hd
      | some sec =>
        cases hv : ov with
        | none => rw [hc, hs, hv] at hd; exact Or.inl hd
        | some v =>
          rw [hc, hs, hv] at hd
          rcases List.mem_or_eq_of_mem_set hd with hd | hd
          · exact Or.inl hd
          · exact Or.inr (Or.inr ⟨sec, String.mk v, n, _, getD_mem_or _ _ _, hd⟩)

/-- The heap grows by one exactly on marker rows with a successful
identifier extraction. -/
theorem step_heap_length (st : PState) (n : Nat) (row : List String) :
    (step st n row).heap.length =
      st.heap.length + (if isMarkerSuccess row then 1 else 0) := by
  unfold step isMarkerSuccess
  cases hcl : classifyRow row with
  | blank => simp
  | marker og =>
    cases og with
    | some g => cases hc : st.current_doc <;> simp [hc]
    | none => cases hc : st.current_doc <;> simp [hc]
  | header sec => simp
  | data ov =>
    cases hc : st.current_doc with
    | none => simp [hc]
    | some i =>
      cases hs : st.current_section with
      | none => simp [hc, hs]
      | some sec =>
        cases hv : ov with
        | none => simp [hc, hs, hv]
        | some v => simp [hc, hs, hv, List.length_set]

/-- Running the row loop adds one heap record per successful marker
row. -/
theorem runRows_heap_length :
    ∀ (rows : List (List String)) (st : PState) (n : Nat),
      (runRows st n rows).heap.length = st.heap.length + rows.countP isMarkerSuccess := by
  intro rows
  induction rows with
  | nil => intro st n; simp [runRows]
  | cons r rs ih =>
    intro st n
    rw [runRows, ih, step_heap_length, List.countP_cons]
    by_cases h : isMarkerSuccess r
    · simp [h]; omega
    · simp [h]

/-- C9 amended: DocumentRecords are constructed exactly at the marker
rows whose identifier extraction succeeds — one per such row, none for
a failed extraction (the constructed identifier itself can be empty, as
the counterexample shows). -/
theorem c9_records_iff_successful_markers (rows : List (List String)) :
    (finalState rows).heap.length = markerSuccessCount rows := by
  unfold finalState markerSuccessCount
  rw [runRows_heap_length]
  simp [initState]

/-- Insertion via `pushIfAbsent` preserves distinctness. -/
theorem nodup_pushIfAbsent (l : List String) (v : String) (h : l.Nodup) :
    (pushIfAbsent l v).Nodup := by
  unfold pushIfAbsent
  split
  · exact h
  · next hv => simp [List.nodup_append, h, hv]

/-- Updating via `applySection` preserves the multi-valued-field invariant. -/
theorem NodupDoc_applySection (sec : SectionTag) (v : String) (m : Nat) (d : Doc)
    (h : NodupDoc d) : NodupDoc (applySection sec v m d) := by
  obtain ⟨h1, h2, h3, h4⟩ := h
  cases sec <;>
    exact ⟨by simp [applySection, nodup_pushIfAbsent, h1],
           by simp [applySection, nodup_pushIfAbsent, h2],
           by simp [applySection, nodup_pushIfAbsent, h3],
           by simp [applySection, nodup_pushIfAbsent, h4]⟩

/-- New records satisfy the invariant. -/
theorem NodupDoc_newDoc (f : String) : NodupDoc (newDoc f) := by
  simp [NodupDoc, newDoc]

/-- One step preserves the heap invariant. -/
theorem step_HeapInv (st : PState) (n : Nat) (row : List String) (h : HeapInv st) :
    HeapInv (step st n row) := by
  intro d hd
  rcases step_heap_mem st n row d hd with hmem | ⟨f, rfl⟩ | ⟨sec, v, m, d0, hd0, rfl⟩
  · exact h d hmem
  · exact NodupDoc_newDoc f
  · rcases hd0 with h0 | rfl
    · exact NodupDoc_applySection _ _ _ _ (h d0 h0)
    · exact NodupDoc_applySection _ _ _ _ (NodupDoc_newDoc "")

/-- The whole row loop preserves the heap invariant. -/
theorem runRows_HeapInv :
    ∀ (rows : List (List String)) (st : PState) (n : Nat),
      HeapInv st → HeapInv (runRows st n rows) := by
  intro rows
  induction rows with
  | nil => intro st n h; exact h
  | cons r rs ih => intro st n h; exact ih _ _ (step_HeapInv st n r h)

/-- C6: every multi-valued field of every parsed DocumentRecord is
duplicate-free, because a data-row value equal to an element already
present is never appended again, and a fresh value is appended at the
end, preserving insertion order. -/
theorem c6_multivalued_fields_nodup :
    (∀ (rows : List (List String)) (d : Doc), d ∈ parse_hierarchical_csv rows →
      d.diagnostico.Nodup ∧ d.cie10.Nodup ∧ d.medicamentos.Nodup ∧ d.consultas.Nodup) ∧
    (∀ (l : List String) (v : String), v ∈ l → pushIfAbsent l v = l) ∧
    (∀ (l : List String) (v : String), v ∉ l → pushIfAbsent l v = l ++ [v]) := by
  refine ⟨fun rows d hd => ?_, fun l v h => by simp [pushIfAbsent, h], fun l v h => by simp [pushIfAbsent, h]⟩
  have hinv : HeapInv (finalState rows) :=
    runRows_HeapInv rows initState 1 (fun d hd => by simp [initState] at hd)
  unfold parse_hierarchical_csv at hd
  rcases List.mem_map.mp hd with ⟨i, _, rfl⟩
  rcases getD_mem_or (finalState rows).heap i (newDoc "") with hm | he
  · exact hinv _ hm
  · rw [he]; exact NodupDoc_newDoc ""

/-- Concrete instance of C6 on a parsed document. -/
theorem c6_multivalued_fields_nodup_witness :
    (docHappy ∈ parse_hierarchical_csv rowsHappy) ∧
    docHappy.diagnostico.Nodup ∧
    ("a" ∈ (["a"] : List String)) ∧ pushIfAbsent ["a"] "a" = ["a"] := by
  refine ⟨by decide, ?_, by decide, c6_multivalued_fields_nodup.2.1 ["a"] "a" (by decide)⟩
  exact (c6_multivalued_fields_nodup.1 rowsHappy docHappy (by decide)).1

/-- C7: whenever the normalized data-row value matches the
`Null(<inner>)` pattern with capture `inner`, the value the row
contributes (when it contributes at all) is exactly the re-normalized
inner text, never the literal wrapper. -/
theorem c7_null_wrapper_contributes_inner (v i w : List Char)
    (hm : nullMatchL v = some i) (hp : processValue v = some w) :
    w = cleanTextL i := by
  unfold processValue at hp
  by_cases hno : asciiUpper v = ['N', 'O']
  · simp [hno] at hp
  · rw [if_neg hno, hm] at hp
    by_cases hskip : (cleanTextL i).isEmpty || asciiLower (cleanTextL i) = ['n', 'u', 'l', 'l']
    · simp [hskip] at hp
    · rw [if_neg (by simpa using hskip)] at hp
      exact (Option.some.inj hp).symm

/-- Concrete instance of C7: value `Null(Neumonía)` with record and
section open contributes exactly `Neumonía`. -/
theorem c7_null_wrapper_contributes_inner_witness :
    nullMatchL "Null(Neumonía)".data = some "Neumonía".data ∧
    processValue "Null(Neumonía)".data = some "Neumonía".data ∧
    "Neumonía".data = cleanTextL "Neumonía".data :=
  ⟨rfl, rfl,
    c7_null_wrapper_contributes_inner "Null(Neumonía)".data "Neumonía".data
      "Neumonía".data rfl rfl⟩

/-- C3 fails on the code: after the input
`Document (1): a` followed by `Document (x): b` (whose identifier
extraction fails), the parser returns the same record sealed twice,
although only one marker row had a successfully extracted identifier:
the second marker row appends the still-open record to the output and
leaves it current, so the end-of-input seal appends it again. -/
theorem c3_double_seal_on_failed_marker :
    parse_hierarchical_csv [["Document (1): a"], ["Document (x): b"]] =
      [newDoc "a", newDoc "a"] ∧
    markerSuccessCount [["Document (1): a"], ["Document (x): b"]] = 1 :=
  ⟨rfl, rfl⟩

/-- C4 fails on the code: a document-marker row whose extraction fails
is not inert.  From the state reached after `Document (1): a`, stepping
on `Document (x): b` seals the open record (appends index 0 to
`documents`) and keeps it as the current record instead of leaving the
state unchanged. -/
theorem c4_failed_marker_seals_record :
    finalState [["Document (1): a"]] = ⟨[newDoc "a"], [], some 0, none⟩ ∧
    step ⟨[newDoc "a"], [], some 0, none⟩ 2 ["Document (x): b"] =
      ⟨[newDoc "a"], [0], some 0, none⟩ ∧
    ([0] : List Nat) ≠ [] :=
  ⟨rfl, rfl, by decide⟩

/-- C9 fails on the code: the marker row `Document (1): "'` yields a
constructed DocumentRecord whose `document_id` is the empty string (the
regex capture is a lone quote character, which normalizes to empty). -/
theorem c9_empty_document_id_counterexample :
    (parse_hierarchical_csv [["Document (1): \"'"]]).map Doc.document_id = [""] :=
  rfl

/-- C8 fails on the code: on the input `""x""`, enclosed in two layers
of double quotes, the source's normalizer strips both layers while the
claimed single-layer strip retains the inner one. -/
theorem c8_one_layer_counterexample :
    clean_text "\"\"x\"\"" = "x" ∧ cleanTextSpecOneLayer "\"\"x\"\"" = "\"x\"" ∧
    clean_text "\"\"x\"\"" ≠ cleanTextSpecOneLayer "\"\"x\"\"" :=
  ⟨rfl, rfl, by decide⟩

/-- C8 amended: the normalizer trims, strips all enclosing double-quote
characters, then all enclosing single-quote characters, then trims
again; an input enclosed in two layers of quote characters keeps the
inner layer when the layers use different quote characters (`'"x"'`)
and loses both when they use the same one. -/
theorem c8_strip_all_quote_layers :
    (∀ s, clean_text s = cleanTextAllLayers s) ∧
    clean_text "'\"x\"'" = "\"x\"" ∧ clean_text "\"\"x\"\"" = "x" := by
  refine ⟨fun s => ?_, rfl, rfl⟩
  unfold clean_text cleanTextAllLayers cleanTextL
  cases h : s.data <;> rfl

/-- Concrete instance of the amended C8 at a smart-quoted input: the
source normalizer agrees with the all-layers pipeline. -/
theorem c8_strip_all_quote_layers_witness :
    clean_text " “x” " = cleanTextAllLayers " “x” " ∧
    clean_text " “x” " = "x" :=
  ⟨c8_strip_all_quote_layers.1 " “x” ", rfl⟩

/-- Concrete instance of the amended C9: two marker rows, one failing
extraction, construct exactly one record. -/
theorem c9_records_iff_successful_markers_witness :
    (finalState [["Document (1): a"], ["Document (x): b"]]).heap.length = 1 ∧
    markerSuccessCount [["Document (1): a"], ["Document (x): b"]] = 1 :=
  ⟨(c9_records_iff_successful_markers [["Document (1): a"], ["Document (x): b"]]).trans rfl,
   rfl⟩

/-- A set-equality check that fails has a member on one side missing
from the other; conversely a passed check gives membership both
ways. -/
theorem setEqB_true_mem {o c : List String} (h : setEqB o c = true) :
    ∀ x, x ∈ o ↔ x ∈ c := by
  rw [setEqB, Bool.and_eq_true] at h
  obtain ⟨h1, h2⟩ := h
  intro x
  constructor
  · intro hx; simpa using List.all_eq_true.mp h1 x hx
  · intro hx; simpa using List.all_eq_true.mp h2 x hx

/-- C5: for each multi-valued field the validator records a missing-
elements issue and an extra-elements issue whenever the element sets
differ, and — independently — a count-mismatch issue whenever the
lengths differ (in particular for a decoded field with a duplicated
element, whose set check passes); and for every compared pair with a
non-empty issue list, the pair's issues appear in the aggregated
discrepancy list the validator returns. -/
theorem c5_validator_issue_reporting :
    (∀ (f : SectionTag) (o c : List String),
      o.filter (fun x => decide (x ∉ c)) ≠ [] →
        Issue.missing f (o.filter (fun x => decide (x ∉ c))) ∈ fieldIssues f o c) ∧
    (∀ (f : SectionTag) (o c : List String),
      c.filter (fun x => decide (x ∉ o)) ≠ [] →
        Issue.extra f (c.filter (fun x => decide (x ∉ o))) ∈ fieldIssues f o c) ∧
    (∀ (f : SectionTag) (o c : List String),
      o.length ≠ c.length →
        Issue.countMismatch f o.length c.length ∈ fieldIssues f o c) ∧
    (∀ (origs : List Doc) (content : String) (conv : List ConvDoc)
        (b : Bool) (d : List (String × List Issue)),
      decodeArtifact content = some conv →
      origs.length = conv.length →
      validate_conversion origs content = some (b, d) →
      ∀ o c, (o, c) ∈ origs.zip conv → docIssues o c ≠ [] →
        (o.document_id, docIssues o c) ∈ d) := by
  refine ⟨?_, ?_, ?_, ?_⟩
  · intro f o c h
    obtain ⟨x, hx⟩ := List.exists_mem_of_ne_nil _ h
    have hxo : x ∈ o := (List.mem_filter.mp hx).1
    have hxc : x ∉ c := by simpa using (List.mem_filter.mp hx).2
    have hset : setEqB o c = false := by
      cases hall : o.all (fun y => decide (y ∈ c)) with
      | false => simp [setEqB, hall]
      | true => exact absurd (by simpa using List.all_eq_true.mp hall x hxo) hxc
    have hne : (o.filter (fun x => decide (x ∉ c))).isEmpty = false := by
      simpa [List.isEmpty_iff] using h
    unfold fieldIssues
    rw [hset]
    simp [hne]
    exact ⟨x, hxo, hxc⟩
  · intro f o c h
    obtain ⟨x, hx⟩ := List.exists_mem_of_ne_nil _ h
    have hxc : x ∈ c := (List.mem_filter.mp hx).1
    have hxo : x ∉ o := by simpa using (List.mem_filter.mp hx).2
    have hset : setEqB o c = false := by
      cases hall : c.all (fun y => decide (y ∈ o)) with
      | false => simp [setEqB, hall]
      | true => exact absurd (by simpa using List.all_eq_true.mp hall x hxc) hxo
    have hne : (c.filter (fun x => decide (x ∉ o))).isEmpty = false := by
      simpa [List.isEmpty_iff] using h
    unfold fieldIssues
    rw [hset]
    simp [hne]
    exact ⟨x, hxc, hxo⟩
  · intro f o c h
    unfold fieldIssues
    exact List.mem_append_right _ (by simp [h])
  · intro origs content conv b d hdec hlen hval o c hmem hne
    unfold validate_conversion at hval
    rw [hdec] at hval
    rw [show (some conv).map (validateDecoded origs) =
        some (validateDecoded origs conv) from rfl] at hval
    injection hval with hval
    unfold validateDecoded at hval
    rw [if_pos hlen, Prod.mk.injEq] at hval
    obtain ⟨_, hd⟩ := hval
    rw [← hd]
    unfold discrepanciesOf
    exact List.mem_filterMap.mpr ⟨(o, c), hmem, by simp [hne]⟩

/-- Concrete instance of C5: a decoded field holding a duplicated
element is flagged with a count-mismatch issue even though the set
check passes, and a dropped element is flagged as missing. -/
theorem c5_validator_issue_reporting_witness :
    ((1 : Nat) ≠ 2 ∧
      Issue.countMismatch .diagnostico 1 2 ∈ fieldIssues .diagnostico ["a"] ["a", "a"]) ∧
    (setEqB ["a"] ["a", "a"] = true) ∧
    ((["a"] : List String).filter (fun x => decide (x ∉ ([] : List String))) ≠ [] ∧
      Issue.missing .diagnostico ["a"] ∈ fieldIssues .diagnostico ["a"] []) :=
  ⟨⟨by decide, c5_validator_issue_reporting.2.2.1 .diagnostico ["a"] ["a", "a"] (by decide)⟩,
   by decide,
   ⟨by decide, c5_validator_issue_reporting.1 .diagnostico ["a"] [] (by decide)⟩⟩

/-- A guard of the validator shape: an if producing a singleton issue
that ended up empty certifies its condition. -/
theorem ite_singleton_nil {p : Prop} [Decidable p] {α : Type} {a : α}
    (h : (if p then ([] : List α) else [a]) = []) : p := by
  by_cases hp : p
  · exact hp
  · rw [if_neg hp] at h
    exact absurd h (by simp)

/-- A field check that recorded no issue gives set equivalence and
equal lengths. -/
theorem fieldIssues_nil {f : SectionTag} {o c : List String}
    (h : fieldIssues f o c = []) :
    (∀ x, x ∈ o ↔ x ∈ c) ∧ o.length = c.length := by
  unfold fieldIssues at h
  rw [List.append_eq_nil] at h
  obtain ⟨hA, hB⟩ := h
  refine ⟨?_, ite_singleton_nil hB⟩
  cases hset : setEqB o c with
  | true => exact setEqB_true_mem hset
  | false =>
    rw [hset] at hA
    simp only [Bool.false_eq_true, if_false] at hA
    rw [List.append_eq_nil] at hA
    obtain ⟨h1, h2⟩ := hA
    have hm := List.isEmpty_iff.mp (ite_singleton_nil h1)
    have hx := List.isEmpty_iff.mp (ite_singleton_nil h2)
    intro x
    constructor
    · intro hxo
      have hcne := List.filter_eq_nil_iff.mp hm x hxo
      simpa using hcne
    · intro hxc
      have hone := List.filter_eq_nil_iff.mp hx x hxc
      simpa using hone

/-- A pair with an empty issue list agrees on the id, the destination
and — setwise and in length — on all four multi-valued fields. -/
theorem docIssues_nil {o : Doc} {c : ConvDoc} (h : docIssues o c = []) :
    o.document_id = c.document_id ∧ o.destino_alta = c.destino_alta ∧
    ((∀ x, x ∈ o.diagnostico ↔ x ∈ c.diagnostico) ∧
      o.diagnostico.length = c.diagnostico.length) ∧
    ((∀ x, x ∈ o.cie10 ↔ x ∈ c.cie10) ∧ o.cie10.length = c.cie10.length) ∧
    ((∀ x, x ∈ o.medicamentos ↔ x ∈ c.medicamentos) ∧
      o.medicamentos.length = c.medicamentos.length) ∧
    ((∀ x, x ∈ o.consultas ↔ x ∈ c.consultas) ∧
      o.consultas.length = c.consultas.length) := by
  unfold docIssues at h
  rw [List.append_eq_nil] at h
  obtain ⟨h, h6⟩ := h
  rw [List.append_eq_nil] at h
  obtain ⟨h, h5⟩ := h
  rw [List.append_eq_nil] at h
  obtain ⟨h, h4⟩ := h
  rw [List.append_eq_nil] at h
  obtain ⟨h, h3⟩ := h
  rw [List.append_eq_nil] at h
  obtain ⟨h1, h2⟩ := h
  exact ⟨ite_singleton_nil h1, ite_singleton_nil h6, fieldIssues_nil h2,
    fieldIssues_nil h3, fieldIssues_nil h4, fieldIssues_nil h5⟩

/-- When the validator accepts, the decoded list has the original's
length and every aligned pair has an empty issue list. -/
theorem validate_true_pairs {origs : List Doc} {content : String}
    {conv : List ConvDoc} {d : List (String × List Issue)}
    (hval : validate_conversion origs content = some (true, d))
    (hdec : decodeArtifact content = some conv) :
    origs.length = conv.length ∧ ∀ p ∈ origs.zip conv, docIssues p.1 p.2 = [] := by
  unfold validate_conversion at hval
  rw [hdec] at hval
  rw [show (some conv).map (validateDecoded origs) =
      some (validateDecoded origs conv) from rfl] at hval
  injection hval with hval
  unfold validateDecoded at hval
  by_cases hlen : origs.length = conv.length
  · rw [if_pos hlen, Prod.mk.injEq] at hval
    refine ⟨hlen, ?_⟩
    obtain ⟨h1, _⟩ := hval
    have hnil := List.isEmpty_iff.mp h1
    intro p hp
    by_contra hne
    have hmem : (p.1.document_id, docIssues p.1 p.2) ∈ discrepanciesOf origs conv := by
      unfold discrepanciesOf
      exact List.mem_filterMap.mpr ⟨p, hp, by simp [hne]⟩
    rw [hnil] at hmem
    cases hmem
  · rw [if_neg hlen, Prod.mk.injEq] at hval
    cases hval.1

/-- Lists of equal length with a pointwise property on their zip have
it at every aligned position. -/
theorem zip_forall_getD {α β : Type} (P : α → β → Prop) (d0 : α) (c0 : β) :
    ∀ (l1 : List α) (l2 : List β), l1.length = l2.length →
      (∀ p ∈ l1.zip l2, P p.1 p.2) →
      ∀ i, i < l1.length → P (l1.getD i d0) (l2.getD i c0) := by
  intro l1
  induction l1 with
  | nil => intro l2 _ _ i hi; simp at hi
  | cons a l1 ih =>
    intro l2 hlen hall i hi
    cases l2 with
    | nil => simp at hlen
    | cons b l2 =>
      cases i with
      | zero => exact hall (a, b) (by simp)
      | succ i =>
        simp only [List.getD_cons_succ]
        exact ih l2 (by simpa using hlen)
          (fun p hp => hall p (by simp; exact Or.inr hp)) i (by simpa using hi)

/-- C1: for any input whose encoded artifact the validator accepts,
the decoded artifact pairs up with the parsed records and at every
position agrees on the document id and discharge destination, and on
each multi-valued field up to element set and length. -/
theorem c1_round_trip_on_accepted (rows : List (List String)) (version : String)
    (d : List (String × List Issue)) (dec : List ConvDoc)
    (hva : validate_conversion (parse_hierarchical_csv rows)
      (convert_to_flat_csv (parse_hierarchical_csv rows) version) = some (true, d))
    (hdec : decodeArtifact (convert_to_flat_csv (parse_hierarchical_csv rows) version) =
      some dec) :
    dec.length = (parse_hierarchical_csv rows).length ∧
    ∀ i, i < (parse_hierarchical_csv rows).length →
      ((parse_hierarchical_csv rows).getD i (newDoc "")).document_id =
        (dec.getD i defaultConv).document_id ∧
      ((parse_hierarchical_csv rows).getD i (newDoc "")).destino_alta =
        (dec.getD i defaultConv).destino_alta ∧
      ((∀ x, x ∈ ((parse_hierarchical_csv rows).getD i (newDoc "")).diagnostico ↔
          x ∈ (dec.getD i defaultConv).diagnostico) ∧
        ((parse_hierarchical_csv rows).getD i (newDoc "")).diagnostico.length =
          (dec.getD i defaultConv).diagnostico.length) ∧
      ((∀ x, x ∈ ((parse_hierarchical_csv rows).getD i (newDoc "")).cie10 ↔
          x ∈ (dec.getD i defaultConv).cie10) ∧
        ((parse_hierarchical_csv rows).getD i (newDoc "")).cie10.length =
          (dec.getD i defaultConv).cie10.length) ∧
      ((∀ x, x ∈ ((parse_hierarchical_csv rows).getD i (newDoc "")).medicamentos ↔
          x ∈ (dec.getD i defaultConv).medicamentos) ∧
        ((parse_hierarchical_csv rows).getD i (newDoc "")).medicamentos.length =
          (dec.getD i defaultConv).medicamentos.length) ∧
      ((∀ x, x ∈ ((parse_hierarchical_csv rows).getD i (newDoc "")).consultas ↔
          x ∈ (dec.getD i defaultConv).consultas) ∧
        ((parse_hierarchical_csv rows).getD i (newDoc "")).consultas.length =
          (dec.getD i defaultConv).consultas.length) := by
  obtain ⟨hlen, hall⟩ := validate_true_pairs hva hdec
  refine ⟨hlen.symm, fun i hi => ?_⟩
  have hp := zip_forall_getD (fun o c => docIssues o c = []) (newDoc "") defaultConv
    (parse_hierarchical_csv rows) dec hlen (fun p hp => hall p hp) i hi
  exact docIssues_nil hp

/-- Concrete instance of C1 on the accepted input `rowsHappy`. -/
theorem c1_round_trip_on_accepted_witness :
    validate_conversion (parse_hierarchical_csv rowsHappy)
      (convert_to_flat_csv (parse_hierarchical_csv rowsHappy) "2024.01.01") =
        some (true, []) ∧
    decodeArtifact (convert_to_flat_csv (parse_hierarchical_csv rowsHappy) "2024.01.01") =
      some [⟨"doc1", ["Neumonía"], [], "", [], []⟩] ∧
    ([(⟨"doc1", ["Neumonía"], [], "", [], []⟩ : ConvDoc)]).length =
      (parse_hierarchical_csv rowsHappy).length :=
  ⟨rfl, rfl,
    (c1_round_trip_on_accepted rowsHappy "2024.01.01" []
      [⟨"doc1", ["Neumonía"], [], "", [], []⟩] rfl rfl).1⟩

/-- An empty document list encodes to the bare header, which the
validator accepts vacuously. -/
theorem validate_of_empty (v : String) :
    validate_conversion [] (convert_to_flat_csv [] v) = some (true, []) := rfl

/-- C2: whenever the validator reports invalid on the parsed records
and their encoded artifact, the pipeline run performs no durable write
at all and stops, communicating failure together with the full
discrepancy list. -/
theorem c2_gate_blocks_on_invalid (rows : List (List String)) (version : String)
    (d : List (String × List Issue))
    (h : validate_conversion (parse_hierarchical_csv rows)
      (convert_to_flat_csv (parse_hierarchical_csv rows) version) = some (false, d)) :
    mainModel rows version = ([], .blocked d) := by
  have hne : parse_hierarchical_csv rows ≠ [] := by
    intro he
    rw [he, validate_of_empty version] at h
    simp at h
  simp only [mainModel]
  rw [if_neg (by simpa [List.isEmpty_iff] using hne), h]
  rfl

/-- Concrete instance of C2: the input `rowsQuoteId` fails validation
(its id round-trips to `a` instead of `a"`), and the gate writes
nothing and reports the discrepancy. -/
theorem c2_gate_blocks_on_invalid_witness :
    validate_conversion (parse_hierarchical_csv rowsQuoteId)
      (convert_to_flat_csv (parse_hierarchical_csv rowsQuoteId) "2024.01.01") =
        some (false, [("a\"", [.docId "a\"" "a"])]) ∧
    mainModel rowsQuoteId "2024.01.01" = ([], .blocked [("a\"", [.docId "a\"" "a"])]) :=
  ⟨rfl, c2_gate_blocks_on_invalid rowsQuoteId "2024.01.01" [("a\"", [.docId "a\"" "a"])] rfl⟩

/-- Undoubling after doubling is the identity on a quote-free head. -/
theorem replaceDD_cons_ne (c : Char) (h : ¬ c = dquote) (t : List Char) :
    replaceDD (c :: t) = c :: replaceDD t := by
  cases t with
  | nil => rfl
  | cons d r => simp [replaceDD, h]

/-- Undoubling inverts the encoder's quote doubling. -/
theorem replaceDD_escape (f : List Char) :
    replaceDD (f.flatMap (fun c => if c = dquote then [dquote, dquote] else [c])) = f := by
  induction f with
  | nil => rfl
  | cons c r ih =>
    by_cases hc : c = dquote
    · subst hc
      have hstep : (dquote :: r).flatMap
          (fun c => if c = dquote then [dquote, dquote] else [c]) =
          dquote :: dquote ::
            r.flatMap (fun c => if c = dquote then [dquote, dquote] else [c]) := by
        simp
      have h2 : replaceDD (dquote :: dquote ::
          r.flatMap (fun c => if c = dquote then [dquote, dquote] else [c])) =
          dquote :: replaceDD
            (r.flatMap (fun c => if c = dquote then [dquote, dquote] else [c])) := by
        simp [replaceDD]
      rw [hstep, h2, ih]
    · have hstep : (c :: r).flatMap
          (fun c => if c = dquote then [dquote, dquote] else [c]) =
          c :: r.flatMap (fun c => if c = dquote then [dquote, dquote] else [c]) := by
        simp [hc]
      rw [hstep, replaceDD_cons_ne c hc, ih]

/-- C10: every artifact starts with the bare, quote-free header line,
and every data-row field (and only those) is unconditionally wrapped in
double quotes with internal double quotes doubled, so that stripping
the wrapper and undoubling recovers the field value. -/
theorem c10_header_bare_fields_quoted (docs : List Doc) (version : String) :
    (∃ rest, (convert_to_flat_csv docs version).data = headerLine ++ '\n' :: rest) ∧
    dquote ∉ headerLine ∧
    ∀ d ∈ docs, ∀ f ∈ rowValues d version,
      ∃ body, csvQuoteL f = dquote :: body ++ [dquote] ∧ replaceDD body = f := by
  refine ⟨⟨_, rfl⟩, by decide, fun d _ f _ => ⟨_, rfl, replaceDD_escape f⟩⟩

/-- Concrete instance of C10 on the document parsed from `rowsHappy`:
its id field is quoted and `"` does not occur in the header. -/
theorem c10_header_bare_fields_quoted_witness :
    (docHappy ∈ [docHappy]) ∧ ("doc1".data ∈ rowValues docHappy "2024.01.01") ∧
    ∃ body, csvQuoteL "doc1".data = dquote :: body ++ [dquote] ∧
      replaceDD body = "doc1".data :=
  ⟨by decide, by decide,
    (c10_header_bare_fields_quoted [docHappy] "2024.01.01").2.2 docHappy (by decide)
      "doc1".data (by decide)⟩

end GroundTruth
